import Mathlib

/-!
# Verification of the static-git-code-review core logic

Shallow embedding of the repository's core algorithms:

* the credential vault (`src/src/lib/keyVault.ts`): `getValidKey`,
  `markRateLimited`, obfuscated storage (`obfuscate` / `deobfuscate`);
* the outbound request controller (`fetchWithRetry` in
  `src/services/githubService.ts` and `src/src/api/github/client`);
* the file-significance ranker (`fetchFileContents` / `scoreFile` in
  `src/services/githubService.ts`);
* the evidence collector (`fetchRepoDetails` in `src/services/githubService.ts`);
* the streaming review generator (`generateReviewStream` in
  `src/services/geminiService.ts`);
* the stream demultiplexer (the `useEffect` of `Sidebar` in
  `src/components/Button.tsx`): regex fence scan, JSON parse, idempotent
  emission, fence stripping.

Host primitives (`fetch`, `Date.now`, `btoa`/`atob`, `JSON.parse`,
JavaScript regular expressions) are embedded as explicit Lean functions or
as oracle parameters (for network responses and the clock).
JavaScript numbers that hold timestamps are modelled as `Int`;
HTTP statuses as `Nat`.
-/

/-! ## Credential vault (`src/src/lib/keyVault.ts`) -/

/-- Service class of a credential: `"github"` (repo host) or `"gemini"` (LLM provider). -/
inductive KeyType where
  | github
  | gemini
deriving DecidableEq, Repr

/-- A managed credential, mirroring the `ManagedKey` TypeScript shape:
`{id, name, type, token, isRateLimitedUntil?}`.  The optional rate-limit
timestamp is a JS number (milliseconds); `none` models the absent field. -/
structure ManagedKey where
  id : String
  name : String
  type : KeyType
  token : String
  isRateLimitedUntil : Option Int := none
deriving DecidableEq, Repr

/-- The vault's mutable state: the in-memory `keys` list of `KeyManagerService`. -/
structure VaultState where
  keys : List ManagedKey
deriving DecidableEq, Repr

/-- JS truthiness test used by `getValidKey`'s filter
`!k.isRateLimitedUntil || k.isRateLimitedUntil < now`:
an absent timestamp is falsy, and so is the number `0`. -/
def rateLimitOk (now : Int) (u : Option Int) : Bool :=
  match u with
  | none => true
  | some t => t = 0 || t < now

/-- `KeyManagerService.getValidKey(type)`: filter the keys by requested type,
drop currently rate-limited ones, return the first remaining token
(`validKeys[0].token`), or `null` when none remain.  `now` stands for the
`Date.now()` call inside the method. -/
def getValidKey (now : Int) (type : KeyType) (st : VaultState) : Option String :=
  let validKeys := (st.keys.filter (fun k => k.type == type)).filter
    (fun k => rateLimitOk now k.isRateLimitedUntil)
  match validKeys with
  | [] => none
  | k :: _ => some k.token

instance : Inhabited ManagedKey := ⟨⟨"", "", .github, "", none⟩⟩

/-- `KeyManagerService.markRateLimited(token)`: find the first key whose token
matches and set `isRateLimitedUntil = Date.now() + 60000`; a missing token is
a no-op. -/
def markRateLimited (now : Int) (token : String) (st : VaultState) : VaultState :=
  match st.keys.findIdx? (fun k => k.token == token) with
  | none => st
  | some i => ⟨st.keys.set i
      { (st.keys.getD i default) with isRateLimitedUntil := some (now + 60000) }⟩

/-! ## Outbound request controller (`fetchWithRetry`)

`fetchWithRetry(url, options, attempt = 0)` obtains a GitHub token, performs
the `fetch`, and on a 403/429 response marks the used token rate-limited and
recurses with `attempt + 1` while `attempt < 5`; any other status — and a
429/403 with no token, or with attempts exhausted — is returned as-is.

The network is an oracle `statusOf : Nat → Nat` giving the HTTP status of the
i-th fetch call of the recursion, and the clock is `clock : Nat → Int` giving
`Date.now()` during that call.  The result records the returned status, the
final vault state, and the list of tokens passed to `markRateLimited`, in
call order. -/

def fetchWithRetry (statusOf : Nat → Nat) (clock : Nat → Int)
    (attempt : Nat) (st : VaultState) : Nat × VaultState × List String :=
  let now := clock attempt
  let token := getValidKey now .github st
  let status := statusOf attempt
  if status = 403 || status = 429 then
    match token with
    | some tok =>
      let st' := markRateLimited now tok st
      if h : attempt < 5 then
        let r := fetchWithRetry statusOf clock (attempt + 1) st'
        (r.1, r.2.1, tok :: r.2.2)
      else
        (status, st', [tok])
    | none => (status, st, [])
  else
    (status, st, [])
termination_by 5 - attempt

/-- `fetchRepoDetails` surfaces the final status of its top-level metadata call
as a typed error: 403/429 → the distinct rate-limit message; any other non-ok
status → the not-found message (`src/services/githubService.ts:224-228`). -/
def repoInfoOutcome (status : Nat) : Except String Unit :=
  if status = 403 || status = 429 then
    .error "GitHub API rate limit exceeded. Please add more tokens in Settings."
  else if ¬ (200 ≤ status ∧ status < 300) then
    .error "Repository not found or private"
  else
    .ok ()

/-- Unfolding equation for `fetchWithRetry` (one attempt of the retry loop). -/
theorem fetchWithRetry_step (statusOf : Nat → Nat) (clock : Nat → Int)
    (attempt : Nat) (st : VaultState) :
    fetchWithRetry statusOf clock attempt st =
      (let now := clock attempt
      let token := getValidKey now .github st
      let status := statusOf attempt
      if status = 403 || status = 429 then
        match token with
        | some tok =>
          let st' := markRateLimited now tok st
          if attempt < 5 then
            let r := fetchWithRetry statusOf clock (attempt + 1) st'
            (r.1, r.2.1, tok :: r.2.2)
          else
            (status, st', [tok])
        | none => (status, st, [])
      else
        (status, st, [])) := by
  rw [fetchWithRetry]
  simp only [dite_eq_ite]

/-- C5: when the service answers 429 on attempts 1–2 and 200 on attempt 3 and a
usable credential exists at each attempt, `fetchWithRetry` returns the 200
response and `markRateLimited` is called exactly twice — once per 429, on the
credential used for that attempt. -/
theorem fetchWithRetry_429_429_200 (statusOf : Nat → Nat) (clock : Nat → Int)
    (st : VaultState) (t0 t1 : String)
    (h0 : statusOf 0 = 429) (h1 : statusOf 1 = 429) (h2 : statusOf 2 = 200)
    (ht0 : getValidKey (clock 0) .github st = some t0)
    (ht1 : getValidKey (clock 1) .github (markRateLimited (clock 0) t0 st) = some t1) :
    (fetchWithRetry statusOf clock 0 st).1 = 200 ∧
    (fetchWithRetry statusOf clock 0 st).2.2 = [t0, t1] := by
  rw [fetchWithRetry_step]
  simp only [h0, ht0]
  norm_num
  rw [fetchWithRetry_step]
  simp only [h1, ht1]
  norm_num
  rw [fetchWithRetry_step]
  simp only [h2]
  norm_num

/-- A vault holding three distinct un-limited GitHub credentials, used to
instantiate the retry scenarios on concrete inputs. -/
def vaultABC : VaultState :=
  ⟨[⟨"1", "K1", .github, "tokA", none⟩,
    ⟨"2", "K2", .github, "tokB", none⟩,
    ⟨"3", "K3", .github, "tokC", none⟩]⟩

/-- Witness for `fetchWithRetry_429_429_200`: the 429/429/200 scenario run on
a concrete three-credential vault returns 200 and marks exactly
`["tokA", "tokB"]`. -/
theorem fetchWithRetry_429_429_200_witness :
    (fetchWithRetry (fun i => if i < 2 then 429 else 200) (fun _ => 1000) 0 vaultABC).1 = 200 ∧
    (fetchWithRetry (fun i => if i < 2 then 429 else 200) (fun _ => 1000) 0 vaultABC).2.2 =
      ["tokA", "tokB"] :=
  fetchWithRetry_429_429_200 (fun i => if i < 2 then 429 else 200) (fun _ => 1000)
    vaultABC "tokA" "tokB" rfl rfl rfl (by decide) (by decide)

/-- C7: `getValidKey` is first-match over the requested class (timestamp unset
or expired); `markRateLimited` stamps the used credential with `now + 60000`;
consequently with the first of two same-class credentials marked it returns
the second, and with both marked it returns none.  `q`/`q2` are the query
times, constrained to fall inside the rate-limit windows. -/
theorem getValidKey_rotation
    (a b : ManagedKey) (ty : KeyType) (t t2 q q2 : Int)
    (hty1 : a.type = ty) (hty2 : b.type = ty)
    (hu1 : a.isRateLimitedUntil = none) (hu2 : b.isRateLimitedUntil = none)
    (hne : a.token ≠ b.token)
    (hq : q ≤ t + 60000) (hz : t + 60000 ≠ 0)
    (hq2 : q2 ≤ t + 60000) (hq2' : q2 ≤ t2 + 60000) (hz2 : t2 + 60000 ≠ 0) :
    (∀ (now : Int) (st : VaultState),
      getValidKey now ty st =
        (st.keys.find? (fun k =>
          k.type == ty && rateLimitOk now k.isRateLimitedUntil)).map (·.token)) ∧
    (markRateLimited t a.token ⟨[a, b]⟩).keys =
      [{a with isRateLimitedUntil := some (t + 60000)}, b] ∧
    getValidKey q ty (markRateLimited t a.token ⟨[a, b]⟩) = some b.token ∧
    getValidKey q2 ty
      (markRateLimited t2 b.token (markRateLimited t a.token ⟨[a, b]⟩)) = none := by
  have hmatch : ∀ (l : List ManagedKey),
      (match l with | [] => none | k :: _ => some k.token) = l.head?.map (·.token) := by
    intro l; cases l <;> rfl
  have hfm : ∀ (now : Int) (st : VaultState),
      getValidKey now ty st =
        (st.keys.find? (fun k =>
          k.type == ty && rateLimitOk now k.isRateLimitedUntil)).map (·.token) := by
    intro now st
    unfold getValidKey
    rw [List.filter_filter]
    have hpq : (fun (k : ManagedKey) => k.type == ty && rateLimitOk now k.isRateLimitedUntil)
        = (fun k => rateLimitOk now k.isRateLimitedUntil && k.type == ty) := by
      funext k; exact Bool.and_comm _ _
    rw [hmatch, List.filter_head?, hpq]
  have hmark1 : markRateLimited t a.token ⟨[a, b]⟩ =
      ⟨[{a with isRateLimitedUntil := some (t + 60000)}, b]⟩ := by
    unfold markRateLimited
    simp [List.findIdx?]
  have hmark2 : markRateLimited t2 b.token
        (⟨[{a with isRateLimitedUntil := some (t + 60000)}, b]⟩ : VaultState) =
      ⟨[{a with isRateLimitedUntil := some (t + 60000)},
        {b with isRateLimitedUntil := some (t2 + 60000)}]⟩ := by
    unfold markRateLimited
    simp [List.findIdx?, hne]
  refine ⟨hfm, by rw [hmark1], ?_, ?_⟩
  · rw [hfm, hmark1]
    simp [List.find?, hty1, hty2, hu1, hu2, rateLimitOk, hz,
      show ¬(t + 60000 < q) by omega]
  · rw [hfm, hmark1, hmark2]
    simp [List.find?, hty1, hty2, rateLimitOk, hz, hz2,
      show ¬(t + 60000 < q2) by omega, show ¬(t2 + 60000 < q2) by omega]

/-- Witness for `getValidKey_rotation` on two concrete GitHub credentials
marked at time 1000 (and 2000), queried at times inside the windows. -/
theorem getValidKey_rotation_witness :
    getValidKey 1500 .github
      (markRateLimited 1000 "tokA" ⟨[⟨"1", "K1", .github, "tokA", none⟩,
        ⟨"2", "K2", .github, "tokB", none⟩]⟩) = some "tokB" ∧
    getValidKey 2500 .github
      (markRateLimited 2000 "tokB" (markRateLimited 1000 "tokA"
        ⟨[⟨"1", "K1", .github, "tokA", none⟩,
          ⟨"2", "K2", .github, "tokB", none⟩]⟩)) = none := by
  have h := getValidKey_rotation
    ⟨"1", "K1", .github, "tokA", none⟩ ⟨"2", "K2", .github, "tokB", none⟩
    .github 1000 2000 1500 2500 rfl rfl rfl rfl (by decide)
    (by norm_num) (by norm_num) (by norm_num) (by norm_num) (by norm_num)
  exact ⟨h.2.2.1, h.2.2.2⟩

/-- C6 counterexample: after exhausting all credentials on persistent 429s the
controller returns the raw rate-limit status itself — the very same observable
as a genuine single upstream 429 with no credential — rather than a distinct
"exhausted" error. -/
theorem fetchWithRetry_no_distinct_exhausted_error :
    (fetchWithRetry (fun _ => 429) (fun _ => 1000) 0 vaultABC).1 = 429 ∧
    (fetchWithRetry (fun _ => 429) (fun _ => 1000) 0 (⟨[]⟩ : VaultState)).1 = 429 := by
  constructor
  · simp [fetchWithRetry_step, getValidKey, markRateLimited, rateLimitOk, vaultABC]
  · simp [fetchWithRetry_step, getValidKey]

/-- C6 amended: the distinction is made one level up — `fetchRepoDetails` maps a
final 403/429 status from the controller to the dedicated rate-limit error
message, which differs from the not-found message used for other failures. -/
theorem exhausted_maps_to_distinct_error (statusOf : Nat → Nat) (clock : Nat → Int)
    (st : VaultState)
    (hexh : (fetchWithRetry statusOf clock 0 st).1 = 403 ∨
            (fetchWithRetry statusOf clock 0 st).1 = 429) :
    repoInfoOutcome (fetchWithRetry statusOf clock 0 st).1 =
      .error "GitHub API rate limit exceeded. Please add more tokens in Settings." ∧
    (∀ s : Nat, ¬(200 ≤ s ∧ s < 300) → s ≠ 403 → s ≠ 429 →
      repoInfoOutcome s = .error "Repository not found or private") ∧
    "GitHub API rate limit exceeded. Please add more tokens in Settings." ≠
      "Repository not found or private" := by
  refine ⟨?_, ?_, by decide⟩
  · rcases hexh with h | h <;> rw [h] <;> rfl
  · intro s hs h403 h429
    unfold repoInfoOutcome
    have : ¬(s = 403 ∨ s = 429) := by tauto
    simp [this, hs, h403, h429]

/-- Witness for `exhausted_maps_to_distinct_error`: the all-429 run on the
concrete vault ends in the distinct rate-limit error. -/
theorem exhausted_maps_to_distinct_error_witness :
    repoInfoOutcome (fetchWithRetry (fun _ => 429) (fun _ => 1000) 0 vaultABC).1 =
      .error "GitHub API rate limit exceeded. Please add more tokens in Settings." ∧
    repoInfoOutcome 404 = .error "Repository not found or private" := by
  have h := exhausted_maps_to_distinct_error (fun _ => 429) (fun _ => 1000) vaultABC
    (Or.inr (by simp [fetchWithRetry_step, getValidKey, markRateLimited, rateLimitOk, vaultABC]))
  exact ⟨h.1, h.2.1 404 (by norm_num) (by norm_num) (by norm_num)⟩

/-! ## File significance ranker (`fetchFileContents` / `scoreFile`,
`src/services/githubService.ts:47-155`)

The candidate files are the blob entries of the repository tree.  The ranker
filters by an extension allow-list, scores each file with `scoreFile`, sorts
by (score desc, path depth asc, path lexical asc) and keeps the top 20.

JS host primitives are embedded as executable Lean functions:
`String.prototype.includes`-style regex fragment tests become substring
tests (`strContains`), `String.prototype.localeCompare` is embedded as
code-point lexicographic comparison (`strCmp`), and `Array.prototype.sort`
(stable, ES2019) as a stable merge sort with `le x y ↔ cmp x y ≤ 0`. -/

/-- A file tree entry (`FileNode` in `src/types`): a blob with its path,
sha, API url, optional byte size and optionally fetched content. -/
structure FileNode where
  path : String
  sha : String := ""
  url : String := ""
  type : String := "blob"
  size : Option Nat := none
  content : Option String := none
deriving DecidableEq, Repr

/-- `String.prototype.split(sep)` for a one-character separator, on character
lists (e.g. `"".split('/') = [""]`, `"a//b".split('/') = ["a","","b"]`). -/
def splitOnChar (sep : Char) : List Char → List (List Char)
  | [] => [[]]
  | c :: rest =>
    let r := splitOnChar sep rest
    if c = sep then [] :: r
    else match r with
      | [] => [[c]]
      | g :: gs => (c :: g) :: gs

/-- `String.prototype.toLowerCase()` (ASCII case folding). -/
def toLowerStr (s : String) : String := String.mk (s.data.map Char.toLower)

/-- `String.prototype.endsWith(pat)`. -/
def strEndsWith (s pat : String) : Bool := pat.data.isSuffixOf s.data

/-- `String.prototype.startsWith(pat)` (also used for regex `^literal` tests). -/
def strStartsWith (s pat : String) : Bool := pat.data.isPrefixOf s.data

/-- `path.split('/')` as a list of strings. -/
def splitSlash (s : String) : List String := (splitOnChar '/' s.data).map String.mk

/-- Substring test on character lists (the `pat` occurs contiguously). -/
def listInfix (pat : List Char) : List Char → Bool
  | [] => pat.isEmpty
  | c :: rest => pat.isPrefixOf (c :: rest) || listInfix pat rest

/-- `s` contains `pat` as a substring (models a regex alternative made of a
literal fragment, tested with `.test(...)`). -/
def strContains (s pat : String) : Bool := listInfix pat.data s.data

/-- `s` contains at least one of the literal fragments. -/
def containsAny (s : String) (pats : List String) : Bool :=
  pats.any (fun p => strContains s p)

/-- `s` starts with at least one of the literal fragments. -/
def startsAny (s : String) (pats : List String) : Bool :=
  pats.any (fun p => strStartsWith s p)

/-- Code-point lexicographic strict order on character lists; embeds the
ordering behind `localeCompare` for the ASCII paths the ranker compares. -/
def charListLt : List Char → List Char → Bool
  | [], [] => false
  | [], _ :: _ => true
  | _ :: _, [] => false
  | a :: as, b :: bs => if a < b then true else if b < a then false else charListLt as bs

/-- `a.localeCompare(b)` embedded as a three-way code-point comparison. -/
def strCmp (a b : String) : Int :=
  if charListLt a.data b.data then -1 else if charListLt b.data a.data then 1 else 0

/-- The `interestingExtensions` allow-list (`src/services/githubService.ts:48`). -/
def interestingExtensions : List String :=
  [".ts", ".tsx", ".js", ".jsx", ".py", ".go", ".rs", ".java", ".kt", ".swift",
   ".c", ".cpp", ".h", ".hpp", ".cs", ".rb", ".php", ".vue", ".svelte", ".css",
   ".scss", ".html", ".json", ".yaml", ".yml", ".md", ".sql", ".graphql"]

/-- `scoreFile` (`src/services/githubService.ts:51-141`): additive score over
independent signal categories, evaluated on the lower-cased path, the bare
lower-cased filename and the path depth.  Each regex of the source is a
disjunction of literal fragments (with `^` anchors and `$` ends rendered as
prefix/suffix tests, and `-?`/`[_-]?` options expanded). -/
def scoreFile (file : FileNode) : Int :=
  let path := toLowerStr file.path
  let fileName := toLowerStr ((splitSlash file.path).getLastD "")
  let pathParts := splitSlash path
  let depth := pathParts.length
  let s : Int := 0
  -- HIGH PRIORITY: entry points and bootstrapping
  let s := if startsAny fileName
      ["main.", "index.", "app.", "server.", "start.", "boot.", "init.", "program.", "entry."]
    then s + 10 else s
  let s := if (strStartsWith fileName "__main__" || strContains fileName "__init__" ||
      strContains fileName "bootstrap") then s + 10 else s
  -- CONFIGURATION & SETUP
  let s := if containsAny path ["config", "settings", "environment", "constants", ".config.", ".env"]
    then s + 8 else s
  let s := if (fileName = "package.json" || fileName = "tsconfig.json" ||
      fileName = "webpack.config.js" || fileName = "vite.config.ts") then s + 9 else s
  let s := if (strEndsWith fileName ".config.js" || strEndsWith fileName ".config.ts" ||
      strEndsWith fileName "rc.js") then s + 8 else s
  -- ROUTING & API LAYERS
  let s := if containsAny path ["route", "router", "routing", "endpoint"] then s + 8 else s
  let s := if containsAny path ["api", "rest", "graphql", "rpc", "grpc"] then s + 7 else s
  let s := if containsAny path ["controller", "handler", "resolver"] then s + 7 else s
  -- DATA & BUSINESS LOGIC
  let s := if containsAny path ["model", "schema", "entity", "domain", "dto", "dao", "repository", "orm"]
    then s + 7 else s
  let s := if containsAny path ["database", "db", "migration", "seed"] then s + 6 else s
  let s := if containsAny path ["service", "business", "logic", "manager", "provider",
      "usecase", "use-case", "interactor"] then s + 7 else s
  -- MIDDLEWARE & CROSS-CUTTING
  let s := if containsAny path ["middleware", "interceptor", "filter", "guard", "decorator", "plugin"]
    then s + 6 else s
  let s := if containsAny path ["auth", "security", "permission", "role", "access"] then s + 6 else s
  -- UTILITIES & SHARED CODE
  let s := if containsAny path ["util", "helper", "common", "shared", "lib", "core", "tool"]
    then s + 5 else s
  let s := if containsAny path ["hook", "composable"] then s + 5 else s
  -- UI COMPONENTS
  let s := if ((strEndsWith path ".tsx" || strEndsWith path ".jsx" || strEndsWith path ".vue" ||
      strEndsWith path ".svelte") &&
      containsAny path ["component", "widget", "view", "page", "screen", "layout", "template"])
    then s + 5 else s
  -- ROOT LEVEL BONUS
  let s := if depth = 1 then s + 7 else s
  let s := if depth = 2 then s + 4 else s
  -- SOURCE DIRECTORY DETECTION
  let s := if startsAny path ["src/", "app/", "lib/", "core/", "source/", "packages/", "modules/"]
    then s + 4 else s
  let s := if (strStartsWith path "backend/" || strStartsWith path "frontend/" ||
      strStartsWith path "server/" || strStartsWith path "client/") then s + 3 else s
  -- DOCUMENTATION
  let s := if (fileName = "readme.md" || fileName = "readme") then s + 6 else s
  let s := if (strContains path "docs/" && strEndsWith fileName ".md") then s + 3 else s
  -- NEGATIVE SCORING
  let s := if containsAny path ["test", "spec", "__tests__", ".test.", ".spec.", "testing"]
    then s - 5 else s
  let s := if containsAny path ["mock", "fixture", "stub", "fake"] then s - 4 else s
  let s := if containsAny path ["dist/", "build/", "out/", "target/", ".min.", ".bundle.",
      "compiled", "generated"] then s - 10 else s
  let s := if containsAny path ["node_modules", "vendor", "thirdparty", "third_party",
      "third-party", "external"] then s - 15 else s
  let s := if (containsAny path ["lock.json", "lock.yaml", "-lock.", "cache", ".cache"] ||
      strEndsWith path ".lock") then s - 10 else s
  -- very large files
  let s := match file.size with
    | some n => if n > 100000 then s - 3 else s
    | none => s
  -- LANGUAGE-SPECIFIC PATTERNS
  let s := if (strEndsWith path ".py" &&
      containsAny fileName ["__init__", "__main__", "manage.py", "wsgi", "asgi"])
    then s + 5 else s
  let s := if ((strEndsWith path ".java" || strEndsWith path ".kt") &&
      containsAny fileName ["Application", "Main", "Config", "Controller", "Service", "Repository"])
    then s + 4 else s
  let s := if (fileName = "main.go" ||
      (containsAny path ["handler", "router", "middleware"] && strEndsWith path ".go"))
    then s + 4 else s
  let s := if (fileName = "main.rs" || fileName = "lib.rs" || fileName = "mod.rs")
    then s + 5 else s
  s

/-- The `{file, score}` pair built by the ranking pipeline's `.map`. -/
structure ScoredFile where
  file : FileNode
  score : Int
deriving DecidableEq, Repr

/-- The sort comparator (`src/services/githubService.ts:146-153`): score
descending, then path depth ascending, then `localeCompare` ascending. -/
def fileCmp (a b : ScoredFile) : Int :=
  if b.score ≠ a.score then b.score - a.score
  else
    let depthA := ((splitSlash a.file.path).length : Int)
    let depthB := ((splitSlash b.file.path).length : Int)
    if depthA ≠ depthB then depthA - depthB
    else strCmp a.file.path b.file.path

/-- `a` may be placed before `b` by a stable sort with comparator `fileCmp`. -/
def fileLe (a b : ScoredFile) : Bool := fileCmp a b ≤ 0

/-- The eligibility filter: the path ends with an allow-listed extension. -/
def hasInterestingExt (f : FileNode) : Bool :=
  interestingExtensions.any (fun ext => strEndsWith f.path ext)

/-- The ranking pipeline of `fetchFileContents`
(`src/services/githubService.ts:143-155`): filter by extension, score, sort
with the comparator, keep the top 20, drop the scores. -/
def rank (files : List FileNode) : List FileNode :=
  ((((files.filter hasInterestingExt).map
      (fun f => ScoredFile.mk f (scoreFile f))).mergeSort fileLe).take 20).map (·.file)

/-- `charListLt` is irreflexive. -/
theorem charListLt_irrefl : ∀ (x : List Char), charListLt x x = false
  | [] => rfl
  | a :: as => by simp [charListLt, charListLt_irrefl as]

/-- `charListLt` is transitive. -/
theorem charListLt_trans : ∀ (x y z : List Char),
    charListLt x y = true → charListLt y z = true → charListLt x z = true
  | [], [], _ => by simp [charListLt]
  | [], _ :: _, [] => by intro _ h; simp [charListLt] at h
  | [], _ :: _, _ :: _ => by intro _ _; simp [charListLt]
  | _ :: _, [], _ => by intro h; simp [charListLt] at h
  | _ :: _, _ :: _, [] => by intro _ h; simp [charListLt] at h
  | a :: as, b :: bs, c :: cs => by
    intro hxy hyz
    simp only [charListLt] at hxy hyz ⊢
    rcases lt_trichotomy a b with hab | hab | hab
    · rcases lt_trichotomy b c with hbc | hbc | hbc
      · simp [lt_trans hab hbc]
      · subst hbc; simp [hab]
      · rw [if_neg (lt_asymm hbc), if_pos hbc] at hyz; simp at hyz
    · subst hab
      rcases lt_trichotomy a c with hac | hac | hac
      · simp [hac]
      · subst hac
        rw [if_neg (lt_irrefl a), if_neg (lt_irrefl a)] at hxy hyz ⊢
        exact charListLt_trans as bs cs hxy hyz
      · rw [if_neg (lt_asymm hac), if_pos hac] at hyz; simp at hyz
    · rw [if_neg (lt_asymm hab), if_pos hab] at hxy; simp at hxy

/-- Two mutually non-smaller character lists are equal. -/
theorem charListLt_conn : ∀ (x y : List Char),
    charListLt x y = false → charListLt y x = false → x = y
  | [], [] => by intro _ _; rfl
  | [], _ :: _ => by intro h _; simp [charListLt] at h
  | _ :: _, [] => by intro _ h; simp [charListLt] at h
  | a :: as, b :: bs => by
    intro hxy hyx
    simp only [charListLt] at hxy hyx
    rcases lt_trichotomy a b with hab | hab | hab
    · rw [if_pos hab] at hxy; simp at hxy
    · subst hab
      rw [if_neg (lt_irrefl a), if_neg (lt_irrefl a)] at hxy hyx
      rw [charListLt_conn as bs hxy hyx]
    · rw [if_neg (lt_asymm hab), if_pos hab] at hyx; simp at hyx

/-- `charListLt` is asymmetric. -/
theorem charListLt_asymm (x y : List Char) (h : charListLt x y = true) :
    charListLt y x = false := by
  by_contra hc
  rw [Bool.not_eq_false] at hc
  have := charListLt_trans x y x h hc
  rw [charListLt_irrefl] at this
  simp at this

/-- `strCmp a b ≤ 0` exactly when `b` is not strictly smaller than `a`. -/
theorem strCmp_nonpos_iff (a b : String) :
    strCmp a b ≤ 0 ↔ charListLt b.data a.data = false := by
  unfold strCmp
  split_ifs with h1 h2
  · simp [charListLt_asymm _ _ h1]
  · simp [h2]
  · simp [h2]

/-- The non-strict string comparison is transitive. -/
theorem strCmp_le_trans (a b c : String)
    (h1 : strCmp a b ≤ 0) (h2 : strCmp b c ≤ 0) : strCmp a c ≤ 0 := by
  rw [strCmp_nonpos_iff] at *
  by_contra hc
  rw [Bool.not_eq_false] at hc
  cases hab : charListLt a.data b.data
  · have := charListLt_conn _ _ hab h1
    rw [this] at hc
    rw [hc] at h2
    simp at h2
  · have := charListLt_trans _ _ _ hc hab
    rw [this] at h2
    simp at h2

/-- The non-strict string comparison is total. -/
theorem strCmp_total (a b : String) : strCmp a b ≤ 0 ∨ strCmp b a ≤ 0 := by
  rw [strCmp_nonpos_iff, strCmp_nonpos_iff]
  cases h : charListLt b.data a.data
  · left; rfl
  · right; exact charListLt_asymm _ _ h

/-- The comparator orders by score descending, then depth ascending, then
path lexical ascending. -/
theorem fileCmp_le_iff (a b : ScoredFile) :
    fileCmp a b ≤ 0 ↔
      (b.score < a.score ∨ (b.score = a.score ∧
        (((splitSlash a.file.path).length : Int) < ((splitSlash b.file.path).length : Int) ∨
         (((splitSlash a.file.path).length : Int) = ((splitSlash b.file.path).length : Int) ∧
          strCmp a.file.path b.file.path ≤ 0)))) := by
  unfold fileCmp
  dsimp only
  generalize strCmp a.file.path b.file.path = s
  generalize ((splitSlash a.file.path).length : Int) = da
  generalize ((splitSlash b.file.path).length : Int) = db
  split_ifs with h1 h2 <;> omega

/-- The sort predicate is transitive (needed for sortedness of the output). -/
theorem fileLe_trans (x y z : ScoredFile)
    (h1 : fileLe x y = true) (h2 : fileLe y z = true) : fileLe x z = true := by
  simp only [fileLe, decide_eq_true_eq, fileCmp_le_iff] at h1 h2 ⊢
  rcases h1 with h1 | ⟨hs1, h1⟩
  · rcases h2 with h2 | ⟨hs2, _⟩ <;> left <;> omega
  · rcases h2 with h2 | ⟨hs2, h2⟩
    · left; omega
    · refine Or.inr ⟨by omega, ?_⟩
      rcases h1 with h1 | ⟨hd1, h1⟩
      · rcases h2 with h2 | ⟨hd2, _⟩ <;> left <;> omega
      · rcases h2 with h2 | ⟨hd2, h2⟩
        · left; omega
        · exact Or.inr ⟨by omega, strCmp_le_trans _ _ _ h1 h2⟩

/-- The sort predicate is total. -/
theorem fileLe_total (x y : ScoredFile) : (fileLe x y || fileLe y x) = true := by
  simp only [fileLe, Bool.or_eq_true, decide_eq_true_eq, fileCmp_le_iff]
  have hst := strCmp_total x.file.path y.file.path
  generalize strCmp x.file.path y.file.path = s1 at hst ⊢
  generalize strCmp y.file.path x.file.path = s2 at hst ⊢
  omega

/-- C3: for every candidate set, `rank` returns at most 20 files, all drawn
from the allow-listed-extension subset of the input, ordered by score
descending then depth ascending then path lexical ascending, and re-running
on the same input yields identical output (the pipeline is a pure function). -/
theorem rank_spec (files : List FileNode) :
    (rank files).length ≤ 20 ∧
    (∀ f ∈ rank files, f ∈ files ∧ hasInterestingExt f = true) ∧
    (rank files).Pairwise
      (fun f g => fileLe ⟨f, scoreFile f⟩ ⟨g, scoreFile g⟩ = true) ∧
    rank files = rank files := by
  have hshape : ∀ p ∈ (((files.filter hasInterestingExt).map
      (fun f => ScoredFile.mk f (scoreFile f))).mergeSort fileLe).take 20,
      p = ScoredFile.mk p.file (scoreFile p.file) := by
    intro p hp
    have hp' := List.mem_of_mem_take hp
    rw [(List.mergeSort_perm _ _).mem_iff, List.mem_map] at hp'
    obtain ⟨g, _, rfl⟩ := hp'
    rfl
  refine ⟨?_, ?_, ?_, rfl⟩
  · unfold rank
    simp only [List.length_map, List.length_take]
    exact Nat.min_le_left _ _
  · intro f hf
    unfold rank at hf
    rw [List.mem_map] at hf
    obtain ⟨p, hp, rfl⟩ := hf
    have hp' := List.mem_of_mem_take hp
    rw [(List.mergeSort_perm _ _).mem_iff, List.mem_map] at hp'
    obtain ⟨g, hg, rfl⟩ := hp'
    rw [List.mem_filter] at hg
    exact ⟨hg.1, hg.2⟩
  · unfold rank
    rw [List.pairwise_map]
    have hsorted := List.sorted_mergeSort fileLe_trans fileLe_total
      ((files.filter hasInterestingExt).map (fun f => ScoredFile.mk f (scoreFile f)))
    have htake := hsorted.sublist (List.take_sublist 20 _)
    refine htake.imp_of_mem ?_
    intro p q hp hq hle
    rw [hshape p hp, hshape q hq] at hle
    exact hle

/-- A candidate file living under `node_modules/`. -/
def nodeModulesFile : FileNode := ⟨"node_modules/a.js", "nm1", "", "blob", none, none⟩

/-- C4 counterexample: a file whose path contains `node_modules/` DOES appear
in the ranked output — the −15 penalty only lowers its score, it does not
exclude it, and `rank` keeps the top 20 regardless of score. -/
theorem node_modules_in_ranked_output : nodeModulesFile ∈ rank [nodeModulesFile] := by
  have hfilter : [nodeModulesFile].filter hasInterestingExt = [nodeModulesFile] := by decide
  unfold rank
  rw [hfilter, List.map_singleton, List.mergeSort_singleton]
  simp [nodeModulesFile]

/-- C4 amended: a `node_modules` path is penalized but not excluded: whenever
its extension is allow-listed it still appears in the ranked output of a
candidate set that fits the top-20 budget (here: a singleton input). -/
theorem rank_keeps_node_modules (f : FileNode)
    (hext : hasInterestingExt f = true)
    (hnm : strContains (toLowerStr f.path) "node_modules" = true) :
    rank [f] = [f] := by
  unfold rank
  rw [List.filter_singleton]
  simp only [hext, cond_true]
  rw [List.map_singleton, List.mergeSort_singleton]
  rfl

/-- Witness for `rank_keeps_node_modules` at the concrete `node_modules` file. -/
theorem rank_keeps_node_modules_witness : rank [nodeModulesFile] = [nodeModulesFile] :=
  rank_keeps_node_modules nodeModulesFile (by decide) (by decide)

/-! ## Key obfuscation (`obfuscate` / `deobfuscate`, `src/src/lib/keyVault.ts:18-38`)

`obfuscate` reverses the characters and base64-encodes (`btoa`); `deobfuscate`
base64-decodes (`atob`) and reverses.  `btoa`/`atob` are the host's Latin-1
base64 primitives, embedded below as an executable encoder/decoder pair;
`btoa` throws — and `obfuscate` falls back to the raw text — when some
character's code point exceeds 255. -/

/-- The base64 alphabet. -/
def b64Alphabet : List Char :=
  "ABCDEFGHIJKLMNOPQRSTUVWXYZabcdefghijklmnopqrstuvwxyz0123456789+/".data

/-- The base64 digit for a 6-bit value. -/
def enc6 (n : Nat) : Char := b64Alphabet.getD n 'A'

/-- The 6-bit value of a base64 digit, `none` for a non-alphabet character. -/
def dec6 (c : Char) : Option Nat := b64Alphabet.findIdx? (fun d => d == c)

/-- Base64-encode a byte list, with `=` padding. -/
def encB64 : List Nat → List Char
  | [] => []
  | [b1] => [enc6 (b1 / 4), enc6 (b1 % 4 * 16), '=', '=']
  | [b1, b2] => [enc6 (b1 / 4), enc6 (b1 % 4 * 16 + b2 / 16), enc6 (b2 % 16 * 4), '=']
  | b1 :: b2 :: b3 :: rest =>
    enc6 (b1 / 4) :: enc6 (b1 % 4 * 16 + b2 / 16) :: enc6 (b2 % 16 * 4 + b3 / 64) ::
      enc6 (b3 % 64) :: encB64 rest

/-- Base64-decode; fails on non-alphabet characters, misplaced padding or a
length that is not a multiple of four (mirroring `atob`'s error behavior). -/
def decB64 : List Char → Option (List Nat)
  | [] => some []
  | c1 :: c2 :: c3 :: c4 :: rest => do
    let v1 ← dec6 c1
    let v2 ← dec6 c2
    if c3 = '=' ∧ c4 = '=' ∧ rest = [] then
      pure [v1 * 4 + v2 / 16]
    else do
      let v3 ← dec6 c3
      if c4 = '=' ∧ rest = [] then
        pure [v1 * 4 + v2 / 16, v2 % 16 * 16 + v3 / 4]
      else do
        let v4 ← dec6 c4
        let tail ← decB64 rest
        pure ((v1 * 4 + v2 / 16) :: (v2 % 16 * 16 + v3 / 4) :: (v3 % 4 * 64 + v4) :: tail)
  | _ => none

/-- Decoding a base64 digit of a 6-bit value recovers the value. -/
theorem dec6_enc6 : ∀ n, n < 64 → dec6 (enc6 n) = some n := by decide

/-- A base64 digit is never the padding character. -/
theorem enc6_ne_eq : ∀ n, n < 64 → (enc6 n = '=') = False := by decide

/-- Base64 decoding inverts encoding on byte lists. -/
theorem decB64_encB64 : ∀ (bs : List Nat), (∀ b ∈ bs, b < 256) →
    decB64 (encB64 bs) = some bs := by
  intro bs
  induction bs using encB64.induct with
  | case1 => intro _; rfl
  | case2 b1 =>
    intro hb
    have h1 : b1 < 256 := hb b1 (by simp)
    simp only [encB64, decB64]
    rw [dec6_enc6 _ (by omega), dec6_enc6 _ (by omega)]
    simp only [Option.bind_eq_bind, Option.some_bind, Option.pure_def]
    rw [if_pos (by simp)]
    congr 1
    congr 1
    omega
  | case3 b1 b2 =>
    intro hb
    have h1 : b1 < 256 := hb b1 (by simp)
    have h2 : b2 < 256 := hb b2 (by simp)
    simp only [encB64, decB64]
    rw [dec6_enc6 _ (by omega), dec6_enc6 _ (by omega)]
    simp only [Option.bind_eq_bind, Option.some_bind, Option.pure_def]
    rw [if_neg (by simp [enc6_ne_eq _ (by omega : b2 % 16 * 4 < 64)])]
    rw [dec6_enc6 _ (by omega)]
    simp only [Option.bind_eq_bind, Option.some_bind, Option.pure_def]
    rw [if_pos (by simp)]
    congr 1
    congr 1
    · omega
    · congr 1
      omega
  | case4 b1 b2 b3 rest ih =>
    intro hb
    have h1 : b1 < 256 := hb b1 (by simp)
    have h2 : b2 < 256 := hb b2 (by simp)
    have h3 : b3 < 256 := hb b3 (by simp)
    have hrest : ∀ b ∈ rest, b < 256 := fun b hbr => hb b (by simp [hbr])
    simp only [encB64, decB64]
    rw [dec6_enc6 _ (by omega), dec6_enc6 _ (by omega)]
    simp only [Option.bind_eq_bind, Option.some_bind, Option.pure_def]
    rw [if_neg (by simp [enc6_ne_eq _ (by omega : b2 % 16 * 4 + b3 / 64 < 64)])]
    rw [dec6_enc6 _ (by omega)]
    simp only [Option.bind_eq_bind, Option.some_bind, Option.pure_def]
    rw [if_neg (by simp [enc6_ne_eq _ (by omega : b3 % 64 < 64)])]
    rw [dec6_enc6 _ (by omega), ih hrest]
    simp only [Option.bind_eq_bind, Option.some_bind, Option.pure_def]
    congr 1
    congr 1
    · omega
    · congr 1
      · omega
      · congr 1
        omega

/-- `btoa(s)`: encode the string's Latin-1 code points; fails (throws in JS)
when a code point exceeds 255. -/
def btoaOpt (s : String) : Option String :=
  if s.data.all (fun c => c.toNat ≤ 255) then
    some (String.mk (encB64 (s.data.map Char.toNat)))
  else none

/-- `atob(s)`: decode base64 into a string of Latin-1 code points. -/
def atobOpt (s : String) : Option String :=
  (decB64 s.data).map (fun bs => String.mk (bs.map Char.ofNat))

/-- `obfuscate(text)`: `btoa(text.split("").reverse().join(""))`, falling back
to `text` itself when `btoa` throws. -/
def obfuscate (text : String) : String :=
  match btoaOpt (String.mk text.data.reverse) with
  | some r => r
  | none => text

/-- `deobfuscate(text)`: `atob(text).split("").reverse().join("")`, falling
back to `text` itself when `atob` throws. -/
def deobfuscate (text : String) : String :=
  match atobOpt text with
  | some d => String.mk d.data.reverse
  | none => text

/-- C10: for every string whose code points are at most 255 (so `btoa`
succeeds), deobfuscation exactly undoes obfuscation — keys written obfuscated
to storage are recovered unchanged on load. -/
theorem deobfuscate_obfuscate (s : String) (h : ∀ c ∈ s.data, c.toNat ≤ 255) :
    deobfuscate (obfuscate s) = s := by
  obtain ⟨sd⟩ := s
  have hall : (String.mk sd.reverse).data.all (fun c => c.toNat ≤ 255) = true := by
    rw [List.all_eq_true]
    intro c hc
    exact decide_eq_true (h c (List.mem_reverse.mp hc))
  unfold obfuscate
  rw [show btoaOpt (String.mk (String.mk sd).data.reverse) =
      some (String.mk (encB64 ((String.mk sd).data.reverse.map Char.toNat))) by
    unfold btoaOpt
    rw [if_pos hall]]
  unfold deobfuscate atobOpt
  rw [show (String.mk (encB64 ((String.mk sd).data.reverse.map Char.toNat))).data
      = encB64 (sd.reverse.map Char.toNat) from rfl]
  rw [decB64_encB64 _ (by
    intro b hb
    rw [List.mem_map] at hb
    obtain ⟨c, hc, rfl⟩ := hb
    have := h c (List.mem_reverse.mp hc)
    omega)]
  simp only [Option.map_some']
  simp only [List.map_map]
  rw [show (Char.ofNat ∘ Char.toNat) = id from funext Char.ofNat_toNat]
  simp [List.map_id, List.reverse_reverse]

/-- Witness for `deobfuscate_obfuscate` on a concrete key-shaped string. -/
theorem deobfuscate_obfuscate_witness :
    deobfuscate (obfuscate "ghp_secretToken123") = "ghp_secretToken123" :=
  deobfuscate_obfuscate "ghp_secretToken123" (by decide)

/-! ## Streaming review generator (`generateReviewStream`,
`src/services/geminiService.ts:109-169`)

The generator builds the prompt, then loops over at most 3 attempts: obtain a
Gemini credential (none → yield one error text event and stop), call the
provider, forward its chunks as text/usage events; a thrown message containing
"429"/"403" marks the credential and retries, with an exhaustion message when
the attempt ceiling is hit; any other error yields one error event and stops.
The provider is an oracle from attempt index to either a thrown error message
or the list of streamed chunks.  The result triple records the yielded
events, the vault state and the number of provider calls made. -/

/-- A chunk received from the provider stream: optional text and optional
usage metadata (a chunk can carry both). -/
structure GenChunk where
  text : Option String := none
  usageMetadata : Option (Int × Int × Int) := none
deriving DecidableEq, Repr

/-- An event yielded by the generator: `{type:'text'}` or `{type:'usage'}`. -/
inductive StreamEvent where
  | text (content : String)
  | usage (input output total : Int)
deriving DecidableEq, Repr

/-- The events yielded for one received chunk: text when `chunk.text` is
truthy, then usage when `chunk.usageMetadata` is present. -/
def eventsOfChunk (c : GenChunk) : List StreamEvent :=
  (match c.text with
   | some s => if s ≠ "" then [.text s] else []
   | none => []) ++
  (match c.usageMetadata with
   | some (i, o, t) => [.usage i o t]
   | none => [])

/-- The terminal error text yielded when no Gemini credential is available. -/
def noGeminiKeyMsg : String :=
  "\n\n**Error:** No valid Gemini API Key found. Please add one in Settings."

/-- The error text yielded when all attempts hit rate limits. -/
def exhaustedKeysMsg : String :=
  "\n\n**Error:** Rate limit exceeded on all available keys. Please add more keys or try again later."

/-- The generator's retry loop (`while attempt < maxAttempts`, max 3). -/
def generateReviewStream (provider : Nat → Except String (List GenChunk))
    (clock : Nat → Int) (attempt : Nat) (st : VaultState) :
    List StreamEvent × VaultState × Nat :=
  if h : attempt < 3 then
    match getValidKey (clock attempt) .gemini st with
    | none => ([.text noGeminiKeyMsg], st, 0)
    | some apiKey =>
      match provider attempt with
      | .ok chunks => ((chunks.map eventsOfChunk).flatten, st, 1)
      | .error msg =>
        if strContains msg "429" || strContains msg "403" then
          let st' := markRateLimited (clock attempt) apiKey st
          let r := generateReviewStream provider clock (attempt + 1) st'
          ((if attempt + 1 = 3 then [.text exhaustedKeysMsg] else []) ++ r.1, r.2.1, r.2.2 + 1)
        else
          ([.text ("\n\n**Error:** " ++ (if msg = "" then "Failed to generate review." else msg))],
            st, 1)
  else ([], st, 0)
termination_by 3 - attempt

/-- C8: with no LLM credential available at the start, the generator yields
exactly one terminal error event (a human-readable message) and terminates
immediately, making no call to the provider. -/
theorem generateReviewStream_no_key (provider : Nat → Except String (List GenChunk))
    (clock : Nat → Int) (st : VaultState)
    (h : getValidKey (clock 0) .gemini st = none) :
    generateReviewStream provider clock 0 st = ([.text noGeminiKeyMsg], st, 0) := by
  rw [generateReviewStream]
  simp [h]

/-- Witness for `generateReviewStream_no_key`: the concrete vault holds only
GitHub credentials, so the Gemini lookup fails. -/
theorem generateReviewStream_no_key_witness :
    generateReviewStream (fun _ => .ok []) (fun _ => 1000) 0 vaultABC =
      ([.text noGeminiKeyMsg], vaultABC, 0) :=
  generateReviewStream_no_key (fun _ => .ok []) (fun _ => 1000) vaultABC (by decide)

/-! ## Evidence collector (`fetchRepoDetails`,
`src/services/githubService.ts:210-282`)

The collector fetches the repository metadata through the retry controller,
turns a final 403/429 into the rate-limit error and any other non-ok status
into the not-found error, then — skipping the commit-list, contributor and
tree requests when the repository has no default branch — gathers the seven
parallel responses, enriches the 15 most recent commits, and runs the ranking
pipeline to decide which file contents to fetch.  The network is an
environment of final per-endpoint outcomes (the statuses/data the retry
wrapper would deliver), and the second component of the result logs every
endpoint the collector requests. -/

/-- A commit record; `stats`/`filesModified` are populated by enrichment. -/
structure Commit where
  sha : String
  url : String := ""
  stats : Option (Int × Int) := none
  filesModified : Option (List (String × String × Option String)) := none
deriving DecidableEq, Repr

/-- A pull request (only the identity matters to the collector model). -/
structure PullRequest where
  number : Int
deriving DecidableEq, Repr

/-- A branch. -/
structure Branch where
  name : String
deriving DecidableEq, Repr

/-- A contributor. -/
structure Contributor where
  login : String
  contributions : Nat := 0
deriving DecidableEq, Repr

/-- The repository-host endpoints the collector can request. -/
inductive Endpoint where
  | repoInfo | commits | pulls | branches | contributors | tree | readme | languages
  | commitDetail (sha : String)
  | fileContent (sha : String)
deriving DecidableEq, Repr

/-- Final outcomes of the host's endpoints: the status/data each request
resolves to after the retry wrapper. -/
structure GithubEnv where
  infoStatus : Nat
  infoDefaultBranch : Option String
  commitsOk : Bool := true
  commitsData : List Commit := []
  pullsOk : Bool := true
  pullsData : List PullRequest := []
  branchesOk : Bool := true
  branchesData : List Branch := []
  contributorsOk : Bool := true
  contributorsData : List Contributor := []
  treeOk : Bool := true
  treeData : List FileNode := []
  readmeOk : Bool := true
  readmeContent : Option String := none
  langsOk : Bool := true
  langsData : List (String × Nat) := []
  commitDetail : String → Option ((Int × Int) × List (String × String × Option String)) := fun _ => none
  fileContent : String → Option String := fun _ => none

/-- The bundle returned to the caller. -/
structure EvidenceBundle where
  defaultBranch : Option String
  commits : List Commit
  pullRequests : List PullRequest
  files : List FileNode
  branches : List Branch
  contributors : List Contributor
  readme : Option String
  languages : List (String × Nat)
deriving Repr

/-- `enrichCommitsWithStats` (`githubService.ts:182-208`): the 15 most recent
commits get a per-commit detail fetch (failures keep the base commit); older
commits keep base metadata. -/
def enrichCommitsWithStats (env : GithubEnv) (commits : List Commit) :
    List Commit × List Endpoint :=
  let topCommits := commits.take 15
  let remaining := commits.drop 15
  let enriched := topCommits.map (fun c =>
    match env.commitDetail c.sha with
    | some (stats, fs) => { c with stats := some stats, filesModified := some fs }
    | none => c)
  (enriched ++ remaining, topCommits.map (fun c => Endpoint.commitDetail c.sha))

/-- The fetching half of `fetchFileContents` (`githubService.ts:157-178`):
each ranked candidate gets a content fetch; fetched content is truncated to
8000 characters; failures leave the file untouched. -/
def fetchFileContentsModel (env : GithubEnv) (files : List FileNode) :
    List FileNode × List Endpoint :=
  let candidates := rank files
  let updated := files.map (fun f =>
    if candidates.any (fun c => c.sha == f.sha) then
      match env.fileContent f.sha with
      | some content => { f with content := some (String.mk (content.data.take 8000)) }
      | none => f
    else f)
  (updated, candidates.map (fun c => Endpoint.fileContent c.sha))

/-- `fetchRepoDetails`: top-level metadata call with its two typed errors,
the empty-repository skips, the parallel fetches, enrichment and content
fetching. -/
def fetchRepoDetails (env : GithubEnv) : Except String EvidenceBundle × List Endpoint :=
  let log0 := [Endpoint.repoInfo]
  if env.infoStatus = 403 || env.infoStatus = 429 then
    (.error "GitHub API rate limit exceeded. Please add more tokens in Settings.", log0)
  else if ¬(200 ≤ env.infoStatus ∧ env.infoStatus < 300) then
    (.error "Repository not found or private", log0)
  else
    let isEmpty : Bool := match env.infoDefaultBranch with
      | none => true
      | some s => s.data.isEmpty
    let parallelLog :=
      (if isEmpty then [] else [Endpoint.commits]) ++ [Endpoint.pulls, Endpoint.branches] ++
      (if isEmpty then [] else [Endpoint.contributors]) ++
      (if isEmpty then [] else [Endpoint.tree]) ++ [Endpoint.readme, Endpoint.languages]
    let rawCommits := if !isEmpty && env.commitsOk then env.commitsData else []
    let pullRequests := if env.pullsOk then env.pullsData else []
    let branches := if env.branchesOk then env.branchesData else []
    let contributors := if !isEmpty && env.contributorsOk then env.contributorsData else []
    let treeFiles := if !isEmpty && env.treeOk then
        (env.treeData.filter (fun n => n.type == "blob")).take 300
      else []
    let enrichResult := enrichCommitsWithStats env rawCommits
    let fileResult := fetchFileContentsModel env treeFiles
    let readme := if env.readmeOk then env.readmeContent else none
    let languages := if env.langsOk then env.langsData else []
    (.ok ⟨env.infoDefaultBranch, enrichResult.1, pullRequests, fileResult.1, branches,
        contributors, readme, languages⟩,
      log0 ++ parallelLog ++ enrichResult.2 ++ fileResult.2)

/-- Ranking an empty candidate set yields no candidates. -/
theorem rank_nil : rank [] = [] := by
  unfold rank
  simp

/-- C9: with no default branch (empty repository) the collector completes
without requesting the commit-list, tree or contributor endpoints and returns
a bundle whose commits, files and contributors are empty, instead of
raising. -/
theorem fetchRepoDetails_empty_repo (env : GithubEnv)
    (hok : 200 ≤ env.infoStatus ∧ env.infoStatus < 300)
    (hnb : env.infoDefaultBranch = none) :
    (∃ bundle, (fetchRepoDetails env).1 = .ok bundle ∧
      bundle.commits = [] ∧ bundle.files = [] ∧ bundle.contributors = []) ∧
    (fetchRepoDetails env).2 =
      [Endpoint.repoInfo, .pulls, .branches, .readme, .languages] ∧
    Endpoint.commits ∉ (fetchRepoDetails env).2 ∧
    Endpoint.tree ∉ (fetchRepoDetails env).2 ∧
    Endpoint.contributors ∉ (fetchRepoDetails env).2 := by
  have h403 : ¬(env.infoStatus = 403 ∨ env.infoStatus = 429) := by omega
  unfold fetchRepoDetails
  rw [hnb]
  simp only [Bool.or_eq_true, decide_eq_true_eq, h403, hok]
  simp [enrichCommitsWithStats, fetchFileContentsModel, rank_nil, h403, hok,
    show ¬(env.infoStatus = 403) by omega, show ¬(env.infoStatus = 429) by omega]

/-- A concrete empty-repository environment, which even carries stale
commit/tree data that the collector must ignore. -/
def emptyRepoEnv : GithubEnv :=
  { infoStatus := 200
    infoDefaultBranch := none
    commitsData := [{ sha := "c1" }]
    treeData := [nodeModulesFile] }

/-- Witness for `fetchRepoDetails_empty_repo` on `emptyRepoEnv`. -/
theorem fetchRepoDetails_empty_repo_witness :
    (∃ bundle, (fetchRepoDetails emptyRepoEnv).1 = .ok bundle ∧
      bundle.commits = [] ∧ bundle.files = [] ∧ bundle.contributors = []) ∧
    (fetchRepoDetails emptyRepoEnv).2 =
      [Endpoint.repoInfo, .pulls, .branches, .readme, .languages] :=
  have h := fetchRepoDetails_empty_repo emptyRepoEnv (by constructor <;> decide) rfl
  ⟨h.1, h.2.1⟩

/-! ## Stream demultiplexer (the `Sidebar` effect,
`src/components/Button.tsx:70-97`)

On every change of the accumulated `markdown` the effect re-scans the whole
buffer with the global regex `/\x60\x60\x60json\s*(\{[\s\S]*?\})\s*\x60\x60\x60/g`;
for each syntactically complete fenced block it attempts `JSON.parse` of the
group; on parse success the block is removed from the forwarded narrative,
and — when the value has truthy `scores` and `commitSummaries` fields and no
result was emitted before (`localResult` is still unset) — the parsed object
is emitted once via `onAnalysisComplete`; on parse failure the block is left
in place.  The narrative forwarded to display is the stripped buffer,
trimmed.

`JSON.parse` is embedded as an executable JSON parser (`jsonParse`);
numbers keep their lexeme (their value is irrelevant here, only truthiness);
`\uXXXX` escapes are decoded as code points (surrogate halves, unreachable
in this development, would be rejected by `Char`).  The regex is embedded
with its exact leftmost/lazy semantics: try each start position in order,
after `\x60\x60\x60json` skip whitespace greedily, require `{`, then grow the lazy
interior one character at a time, accepting the first `}` that is followed
by optional whitespace and a closing fence. -/
/-- A parsed JSON value; `num` keeps the numeric lexeme as written. -/
inductive Json where
  | null
  | bool (b : Bool)
  | num (lexeme : String)
  | str (s : String)
  | arr (elems : List Json)
  | obj (fields : List (String × Json))
deriving Repr

/-- JSON insignificant whitespace. -/
def jsonWs (c : Char) : Bool := c = ' ' || c = '\t' || c = '\n' || c = '\r'

/-- Skip JSON whitespace. -/
def skipWs (cs : List Char) : List Char := cs.dropWhile jsonWs

/-- Single-character string escapes accepted by `JSON.parse`. -/
def escChar (e : Char) : Option Char :=
  if e = '"' then some '"'
  else if e = '\\' then some '\\'
  else if e = '/' then some '/'
  else if e = 'b' then some (Char.ofNat 8)
  else if e = 'f' then some (Char.ofNat 12)
  else if e = 'n' then some '\n'
  else if e = 'r' then some '\r'
  else if e = 't' then some '\t'
  else none

/-- Hexadecimal digit value. -/
def hexVal (c : Char) : Option Nat :=
  if '0' ≤ c ∧ c ≤ '9' then some (c.toNat - '0'.toNat)
  else if 'a' ≤ c ∧ c ≤ 'f' then some (c.toNat - 'a'.toNat + 10)
  else if 'A' ≤ c ∧ c ≤ 'F' then some (c.toNat - 'A'.toNat + 10)
  else none

/-- Body of a JSON string after the opening quote: characters and escapes up
to the closing quote (raw control characters are rejected). -/
def parseStringGo (acc : List Char) : List Char → Option (String × List Char)
  | [] => none
  | '"' :: rest => some (String.mk acc.reverse, rest)
  | '\\' :: e :: rest =>
    match escChar e with
    | some c => parseStringGo (c :: acc) rest
    | none =>
      if e = 'u' then
        match rest with
        | h1 :: h2 :: h3 :: h4 :: rest' =>
          match hexVal h1, hexVal h2, hexVal h3, hexVal h4 with
          | some v1, some v2, some v3, some v4 =>
            parseStringGo (Char.ofNat (v1 * 4096 + v2 * 256 + v3 * 16 + v4) :: acc) rest'
          | _, _, _, _ => none
        | _ => none
      else none
  | c :: rest => if c.toNat < 32 then none else parseStringGo (c :: acc) rest

/-- Parse a JSON string body. -/
def parseStringBody (cs : List Char) : Option (String × List Char) := parseStringGo [] cs

/-- The exponent part of a JSON number. -/
def numAfterExp (lex : List Char) (cs : List Char) : Option (Json × List Char) :=
  let (sign, cs1) := match cs with
    | '+' :: r => (['+'], r)
    | '-' :: r => (['-'], r)
    | _ => ([], cs)
  let ds := cs1.takeWhile Char.isDigit
  if ds.isEmpty then none
  else some (.num (String.mk (lex ++ sign ++ ds)), cs1.dropWhile Char.isDigit)

/-- The optional exponent after the integer/fraction part. -/
def numAfterFrac (lex : List Char) (cs : List Char) : Option (Json × List Char) :=
  match cs with
  | 'e' :: r => numAfterExp (lex ++ ['e']) r
  | 'E' :: r => numAfterExp (lex ++ ['E']) r
  | _ => some (.num (String.mk lex), cs)

/-- The optional fraction part of a JSON number. -/
def numAfterInt (lex : List Char) (cs : List Char) : Option (Json × List Char) :=
  match cs with
  | '.' :: r =>
    let ds := r.takeWhile Char.isDigit
    if ds.isEmpty then none
    else numAfterFrac (lex ++ '.' :: ds) (r.dropWhile Char.isDigit)
  | _ => numAfterFrac lex cs

/-- A JSON number token: `-? (0 | [1-9][0-9]*) (. [0-9]+)? ([eE][+-]?[0-9]+)?`. -/
def parseNumberTok (cs : List Char) : Option (Json × List Char) :=
  let (neg, cs1) := match cs with
    | '-' :: r => (['-'], r)
    | _ => ([], cs)
  match cs1 with
  | '0' :: r => numAfterInt (neg ++ ['0']) r
  | c :: _ =>
    if '1' ≤ c ∧ c ≤ '9' then
      numAfterInt (neg ++ cs1.takeWhile Char.isDigit) (cs1.dropWhile Char.isDigit)
    else none
  | [] => none

mutual

/-- Parse a JSON value (fuel-bounded recursion). -/
def parseValue : Nat → List Char → Option (Json × List Char)
  | 0, _ => none
  | fuel + 1, cs =>
    match skipWs cs with
    | 'n' :: 'u' :: 'l' :: 'l' :: rest => some (.null, rest)
    | 't' :: 'r' :: 'u' :: 'e' :: rest => some (.bool true, rest)
    | 'f' :: 'a' :: 'l' :: 's' :: 'e' :: rest => some (.bool false, rest)
    | '"' :: rest =>
      match parseStringBody rest with
      | some (s, r) => some (.str s, r)
      | none => none
    | '{' :: rest =>
      match skipWs rest with
      | '}' :: r => some (.obj [], r)
      | _ =>
        match parseMembers fuel rest with
        | some (fields, r) => some (.obj fields, r)
        | none => none
    | '[' :: rest =>
      match skipWs rest with
      | ']' :: r => some (.arr [], r)
      | _ =>
        match parseElems fuel rest with
        | some (elems, r) => some (.arr elems, r)
        | none => none
    | cs' => parseNumberTok cs'

/-- Parse the members of a JSON object up to and including its `}`. -/
def parseMembers : Nat → List Char → Option (List (String × Json) × List Char)
  | 0, _ => none
  | fuel + 1, cs =>
    match skipWs cs with
    | '"' :: rest =>
      match parseStringBody rest with
      | some (key, r1) =>
        match skipWs r1 with
        | ':' :: r2 =>
          match parseValue fuel r2 with
          | some (v, r3) =>
            match skipWs r3 with
            | ',' :: r4 =>
              match parseMembers fuel r4 with
              | some (fields, r5) => some ((key, v) :: fields, r5)
              | none => none
            | '}' :: r4 => some ([(key, v)], r4)
            | _ => none
          | none => none
        | _ => none
      | none => none
    | _ => none

/-- Parse the elements of a JSON array up to and including its `]`. -/
def parseElems : Nat → List Char → Option (List Json × List Char)
  | 0, _ => none
  | fuel + 1, cs =>
    match parseValue fuel cs with
    | some (v, r1) =>
      match skipWs r1 with
      | ',' :: r2 =>
        match parseElems fuel r2 with
        | some (elems, r3) => some (v :: elems, r3)
        | none => none
      | ']' :: r2 => some ([v], r2)
      | _ => none
    | none => none

end

/-- `JSON.parse`: a whole-string JSON value (initial fuel suffices since
every recursion step consumes input). -/
def jsonParse (s : String) : Option Json :=
  match parseValue (s.data.length + 1) s.data with
  | some (v, rest) => if (skipWs rest).isEmpty then some v else none
  | none => none


/-- The JavaScript regex `\s` class (ASCII part). -/
def regexWs (c : Char) : Bool :=
  c = ' ' || c = '\t' || c = '\n' || c = '\r' || c = Char.ofNat 11 || c = Char.ofNat 12

/-- Grow the lazy interior `[\s\S]*?` one character at a time: at each `}`
test whether whitespace plus a closing fence follows; on success return the
interior (including the final `}`), the matched whitespace and the rest after
the fence. -/
def findClose (acc : List Char) : List Char → Option (List Char × List Char × List Char)
  | [] => none
  | c :: w =>
    if c = '}' then
      let ws2 := w.takeWhile regexWs
      let x := w.dropWhile regexWs
      if "```".data.isPrefixOf x then
        some (acc ++ ['}'], ws2, x.drop 3)
      else
        findClose (acc ++ [c]) w
    else
      findClose (acc ++ [c]) w

/-- Match the fence regex anchored at the start of `t`, returning the whole
match, the parenthesised group and the rest of the buffer. -/
def fenceMatchAt (t : List Char) : Option (List Char × List Char × List Char) :=
  if "```json".data.isPrefixOf t then
    let u := t.drop 7
    let ws1 := u.takeWhile regexWs
    let v := u.dropWhile regexWs
    match v with
    | '{' :: w =>
      match findClose [] w with
      | some (body, ws2, rest) =>
        some ("```json".data ++ ws1 ++ ('{' :: body) ++ ws2 ++ "```".data,
              '{' :: body, rest)
      | none => none
    | _ => none
  else none

/-- Leftmost regex match: try successive start positions. -/
def findFence : List Char → Option (List Char × List Char × List Char)
  | [] => none
  | c :: rest =>
    match fenceMatchAt (c :: rest) with
    | some r => some r
    | none => findFence rest

/-- All matches of the global regex, scanning from after each match
(`jsonRegex.exec` in a loop); fuel bounded by the buffer length. -/
def scanFences : Nat → List Char → List (List Char × List Char)
  | 0, _ => []
  | fuel + 1, t =>
    match findFence t with
    | none => []
    | some (whole, group, rest) => (whole, group) :: scanFences fuel rest

/-- `String.prototype.replace(pat, "")` with a string pattern: remove the
first occurrence. -/
def listReplaceFirst (s pat : List Char) : List Char :=
  match s with
  | [] => []
  | c :: rest =>
    if pat.isPrefixOf (c :: rest) then (c :: rest).drop pat.length
    else c :: listReplaceFirst rest pat

/-- `String.prototype.trim()`. -/
def trimStr (s : List Char) : List Char :=
  ((s.dropWhile regexWs).reverse.dropWhile regexWs).reverse

/-- JavaScript truthiness of a parsed JSON value (`0`-valued numeric lexemes
and the empty string are falsy). -/
def truthy : Json → Bool
  | .null => false
  | .bool b => b
  | .num lex => (lex.data.takeWhile (fun c => c ≠ 'e' ∧ c ≠ 'E')).any
      (fun c => '1' ≤ c ∧ c ≤ '9')
  | .str s => !s.data.isEmpty
  | .arr _ => true
  | .obj _ => true

/-- Property access on a parsed object (`JSON.parse` keeps the last of
duplicate keys). -/
def getField (j : Json) (key : String) : Option Json :=
  match j with
  | .obj fields => ((fields.reverse).find? (fun p => p.1 == key)).map (·.2)
  | _ => none

/-- `parsed.key` is present and truthy. -/
def truthyField (j : Json) (key : String) : Bool :=
  match getField j key with
  | some v => truthy v
  | none => false

/-- The observable outcome of one run of the effect body: the narrative text
set via `setCleanMarkdown`, the objects passed to `onAnalysisComplete` (in
order) and the final `localResult`. -/
structure SidebarRun where
  cleanMarkdown : String
  emissions : List Json
  localResultAfter : Option Json

/-- One run of the `useEffect` body on the accumulated buffer: scan all
fenced blocks; each parse success strips the block (`replace(match[0],"")`)
and — if both mandatory keys are truthy and the captured `localResult` was
unset — emits the object; parse failures leave the block in the narrative.
The effect's re-run triggered by the `localResult` state update is absorbed:
it recomputes the same narrative and emits nothing new. -/
def sidebarEffect (markdown : String) (localResult : Option Json) : SidebarRun :=
  let ms := scanFences (markdown.data.length + 1) markdown.data
  let r := ms.foldl (fun (acc : List Char × List Json) m =>
    match jsonParse (String.mk m.2) with
    | some parsed =>
      ((listReplaceFirst acc.1 m.1),
       if truthyField parsed "scores" && truthyField parsed "commitSummaries"
           && localResult.isNone then acc.2 ++ [parsed] else acc.2)
    | none => acc) (markdown.data, [])
  { cleanMarkdown := String.mk (trimStr r.1)
    emissions := r.2
    localResultAfter := match r.2.getLast? with
      | some p => some p
      | none => localResult }

/-- The demultiplexer state across chunks: the accumulated markdown, the
emitted-once guard, the currently displayed narrative and all emissions. -/
structure DemuxState where
  markdown : String
  localResult : Option Json
  cleanMarkdown : String
  emitted : List Json

/-- State before any chunk arrived. -/
def initialDemuxState : DemuxState := ⟨"", none, "", []⟩

/-- Append one `TextDelta` and re-run the effect on the whole buffer. -/
def feedChunk (st : DemuxState) (chunk : String) : DemuxState :=
  let md := st.markdown ++ chunk
  let r := sidebarEffect md st.localResult
  { markdown := md
    localResult := r.localResultAfter
    cleanMarkdown := r.cleanMarkdown
    emitted := st.emitted ++ r.emissions }

/-- Feed a sequence of chunks in order. -/
def feedChunks (st : DemuxState) (chunks : List String) : DemuxState :=
  chunks.foldl feedChunk st


set_option maxRecDepth 4000

/-- C2: feeding the two chunks of the spec's demultiplexer test yields the
narrative `"Hello \nWorld"` with the fenced region removed, the parsed object
(with its scores and commit-summary maps) is emitted exactly once, and a
further chunk — whose re-scan sees the same complete fenced block again —
adds no second emission. -/
theorem demux_hello_world :
    (feedChunks initialDemuxState
      ["Hello ```json\n\x7b\"sc",
       "ores\":\x7b\x7d, \"commitSummaries\":\x7b\x7d\x7d\n```\nWorld"]).cleanMarkdown
      = "Hello \nWorld" ∧
    (feedChunks initialDemuxState
      ["Hello ```json\n\x7b\"sc",
       "ores\":\x7b\x7d, \"commitSummaries\":\x7b\x7d\x7d\n```\nWorld"]).emitted
      = [Json.obj [("scores", Json.obj []), ("commitSummaries", Json.obj [])]] ∧
    (feedChunk (feedChunks initialDemuxState
      ["Hello ```json\n\x7b\"sc",
       "ores\":\x7b\x7d, \"commitSummaries\":\x7b\x7d\x7d\n```\nWorld"]) " more").emitted
      = [Json.obj [("scores", Json.obj []), ("commitSummaries", Json.obj [])]] :=
  ⟨rfl, rfl, rfl⟩

/-- C1 counterexample: with the fence still open, the forwarded narrative is
the ENTIRE buffer — the still-accumulating fenced region (opening fence and
partial JSON included) leaks into the emitted narrative text, instead of only
the text outside the fence. -/
theorem demux_leaks_open_fence :
    (feedChunk initialDemuxState "Hello ```json\n\x7b\"sc").cleanMarkdown
      = "Hello ```json\n\x7b\"sc" ∧
    strContains (feedChunk initialDemuxState "Hello ```json\n\x7b\"sc").cleanMarkdown
      "```json" = true :=
  ⟨rfl, rfl⟩

/-- C1 amended: while the buffer contains no syntactically complete fenced
region (in particular while an opening fence's closing fence has not yet
arrived), the demultiplexer forwards the whole accumulated buffer — the
still-accumulating fenced region included — as the (trimmed) narrative, and
emits no structured object. -/
theorem sidebarEffect_no_match (markdown : String) (lr : Option Json)
    (h : findFence markdown.data = none) :
    (sidebarEffect markdown lr).cleanMarkdown = String.mk (trimStr markdown.data) ∧
    (sidebarEffect markdown lr).emissions = [] := by
  have hscan : scanFences (markdown.data.length + 1) markdown.data = [] := by
    simp only [scanFences, h]
  unfold sidebarEffect
  rw [hscan]
  exact ⟨rfl, rfl⟩

/-- Witness for `sidebarEffect_no_match` on the open-fence buffer. -/
theorem sidebarEffect_no_match_witness :
    (sidebarEffect "Hello ```json\n\x7b\"sc" none).cleanMarkdown
      = String.mk (trimStr "Hello ```json\n\x7b\"sc".data) ∧
    (sidebarEffect "Hello ```json\n\x7b\"sc" none).emissions = [] :=
  sidebarEffect_no_match "Hello ```json\n\x7b\"sc" none rfl
